import Mathlib

/-!
Verification of the completion-response post-processing pipeline of the
straico-client repository (`src/endpoints/completion/completion_response.rs`):
the tool-call extractor (`Message::into_tool_calls_response`), the
finish-reason normalizer and parse orchestrator (`Completion::parse`), the
completion selector (`CompletionData::get_completion`) and the custom
serializer (`impl Serialize for FunctionData`).

The embedding is shallow: Rust in-place mutation becomes explicit state
passing (`Except` for fallible operations), `serde_json::Value` becomes the
inductive `Json` below (JSON numbers restricted to integers and string
escapes restricted to the simple escape set; no claim depends on number or
escape fine structure), and the regex `<tool_call>(.*?)</tool_call>` becomes
an equivalent explicit leftmost, non-greedy, non-overlapping scanner over
character lists.
-/

/-- Model of `serde_json::Value` (numbers restricted to integers). -/
inductive Json where
  | null : Json
  | bool (b : Bool) : Json
  | num (n : Int) : Json
  | str (s : String) : Json
  | arr (items : List Json) : Json
  | obj (fields : List (String × Json)) : Json

/-- Hex digit characters used by the serializer for control-character escapes. -/
def hexDigit (n : Nat) : Char :=
  if n < 10 then Char.ofNat (48 + n) else Char.ofNat (87 + n)

/-- The left curly brace character (written via its code point). -/
def lbrace : Char := Char.ofNat 123

/-- The right curly brace character (written via its code point). -/
def rbrace : Char := Char.ofNat 125

/-- JSON string-character escaping as performed by `serde_json` when printing. -/
def escapeChar (c : Char) : List Char :=
  if c = '"' then ['\\', '"']
  else if c = '\\' then ['\\', '\\']
  else if c = Char.ofNat 8 then ['\\', 'b']
  else if c = '\t' then ['\\', 't']
  else if c = '\n' then ['\\', 'n']
  else if c = Char.ofNat 12 then ['\\', 'f']
  else if c = Char.ofNat 13 then ['\\', 'r']
  else if c.toNat < 32 then
    ['\\', 'u', '0', '0', hexDigit (c.toNat / 16), hexDigit (c.toNat % 16)]
  else [c]

/-- Render a JSON string literal (quotes plus escaped body). -/
def renderString (s : String) : List Char :=
  '"' :: (s.data.flatMap escapeChar) ++ ['"']

mutual
/-- Compact rendering of a `Json` value; models `serde_json::Value::to_string`. -/
def Json.render : Json → List Char
  | .null => "null".data
  | .bool true => "true".data
  | .bool false => "false".data
  | .num n => (toString n).data
  | .str s => renderString s
  | .arr items => '[' :: renderList items ++ [']']
  | .obj fields => lbrace :: renderFields fields ++ [rbrace]

/-- Render array elements, comma separated. -/
def renderList : List Json → List Char
  | [] => []
  | [j] => j.render
  | j :: rest => j.render ++ ',' :: renderList rest

/-- Render object fields, comma separated. -/
def renderFields : List (String × Json) → List Char
  | [] => []
  | [(k, v)] => renderString k ++ ':' :: v.render
  | (k, v) :: rest => renderString k ++ ':' :: v.render ++ ',' :: renderFields rest
end

/-- Models `serde_json::Value::to_string`. -/
def Json.toString (j : Json) : String := String.mk j.render

/-- JSON whitespace characters (space, tab, line feed, carriage return). -/
def isJsonWs (c : Char) : Bool :=
  c = ' ' || c = '\t' || c = '\n' || c = Char.ofNat 13

/-- Drop leading JSON whitespace. -/
def skipWs : List Char → List Char
  | [] => []
  | c :: rest => if isJsonWs c then skipWs rest else c :: rest

/-- Decode a single-character JSON escape. -/
def decodeEscape (e : Char) : Option Char :=
  if e = '"' then some '"'
  else if e = '\\' then some '\\'
  else if e = '/' then some '/'
  else if e = 'b' then some (Char.ofNat 8)
  else if e = 'f' then some (Char.ofNat 12)
  else if e = 'n' then some '\n'
  else if e = 'r' then some (Char.ofNat 13)
  else if e = 't' then some '\t'
  else none

/-- Parse the body of a JSON string literal after the opening quote:
returns the decoded characters and the input remaining after the closing
quote. Supports the simple escape set. -/
def parseStringRest : List Char → Option (List Char × List Char)
  | [] => none
  | '"' :: rest => some ([], rest)
  | '\\' :: e :: rest =>
    match decodeEscape e with
    | none => none
    | some c =>
      match parseStringRest rest with
      | none => none
      | some (body, rem) => some (c :: body, rem)
  | c :: rest =>
    if c.toNat < 32 then none
    else
      match parseStringRest rest with
      | none => none
      | some (body, rem) => some (c :: body, rem)

/-- Parse a run of decimal digits into a natural number; fails on no digits. -/
def parseDigits (s : List Char) : Option (Nat × List Char) :=
  let digits := s.takeWhile (fun c => c.isDigit)
  if digits.isEmpty then none
  else some (digits.foldl (fun acc c => 10 * acc + (c.toNat - 48)) 0, s.dropWhile (fun c => c.isDigit))

mutual
/-- Fueled recursive-descent parser for the `Json` model; returns the parsed
value and the unconsumed remainder. -/
def parseValue : Nat → List Char → Option (Json × List Char)
  | 0, _ => none
  | fuel + 1, s =>
    match skipWs s with
    | 'n' :: 'u' :: 'l' :: 'l' :: rest => some (.null, rest)
    | 't' :: 'r' :: 'u' :: 'e' :: rest => some (.bool true, rest)
    | 'f' :: 'a' :: 'l' :: 's' :: 'e' :: rest => some (.bool false, rest)
    | '"' :: rest =>
      match parseStringRest rest with
      | none => none
      | some (body, rem) => some (.str (String.mk body), rem)
    | '-' :: rest =>
      match parseDigits rest with
      | none => none
      | some (n, rem) => some (.num (-(n : Int)), rem)
    | c :: rest =>
      if c = '[' then
        match skipWs rest with
        | ']' :: rem => some (.arr [], rem)
        | rem2 =>
          match parseElems fuel rem2 with
          | none => none
          | some (items, rem3) => some (.arr items, rem3)
      else if c = lbrace then
        match skipWs rest with
        | d :: rem =>
          if d = rbrace then some (.obj [], rem)
          else
            match parseFields fuel (d :: rem) with
            | none => none
            | some (fields, rem3) => some (.obj fields, rem3)
        | [] => none
      else if c.isDigit then
        match parseDigits (c :: rest) with
        | none => none
        | some (n, rem) => some (.num (n : Int), rem)
      else none
    | [] => none

/-- Parse the elements of a non-empty JSON array body, up to and including
the closing bracket. -/
def parseElems : Nat → List Char → Option (List Json × List Char)
  | 0, _ => none
  | fuel + 1, s =>
    match parseValue fuel s with
    | none => none
    | some (j, rem) =>
      match skipWs rem with
      | ',' :: rem2 =>
        match parseElems fuel rem2 with
        | none => none
        | some (js, rem3) => some (j :: js, rem3)
      | ']' :: rem2 => some ([j], rem2)
      | _ => none

/-- Parse the fields of a non-empty JSON object body, up to and including
the closing brace. -/
def parseFields : Nat → List Char → Option (List (String × Json) × List Char)
  | 0, _ => none
  | fuel + 1, s =>
    match skipWs s with
    | '"' :: rest =>
      match parseStringRest rest with
      | none => none
      | some (keyChars, rem) =>
        match skipWs rem with
        | ':' :: rem2 =>
          match parseValue fuel rem2 with
          | none => none
          | some (v, rem3) =>
            match skipWs rem3 with
            | ',' :: rem4 =>
              match parseFields fuel rem4 with
              | none => none
              | some (fs, rem5) => some ((String.mk keyChars, v) :: fs, rem5)
            | d :: rem4 =>
              if d = rbrace then some ([(String.mk keyChars, v)], rem4) else none
            | [] => none
        | _ => none
    | _ => none
end

/-- Model of `serde_json::from_str::<Value>`: parse a complete JSON text,
requiring only trailing whitespace after the value. -/
def jsonFromStr (s : String) : Except String Json :=
  match parseValue (2 * s.length + 4) s.data with
  | none => .error "invalid JSON"
  | some (j, rem) =>
    match skipWs rem with
    | [] => .ok j
    | _ => .error "trailing characters"

/-- Struct `FunctionData` from the source: the name of the function to call and its
arguments as a dynamic JSON value. -/
structure FunctionData where
  name : String
  arguments : Json

/-- Field loop of the derived `Deserialize` for `FunctionData`: fields are
visited in order, unknown fields are ignored, a duplicate required field is
an error, and a missing required field is an error at the end. -/
def FunctionData.fromJsonFields :
    List (String × Json) → Option String → Option Json → Except String FunctionData
  | [], n?, a? =>
    match n? with
    | none => .error "missing field name"
    | some n =>
      match a? with
      | none => .error "missing field arguments"
      | some a => .ok ⟨n, a⟩
  | (k, v) :: rest, n?, a? =>
    if k = "name" then
      match n? with
      | some _ => .error "duplicate field name"
      | none =>
        match v with
        | .str s => FunctionData.fromJsonFields rest (some s) a?
        | _ => .error "invalid type for field name"
    else if k = "arguments" then
      match a? with
      | some _ => .error "duplicate field arguments"
      | none => FunctionData.fromJsonFields rest n? (some v)
    else FunctionData.fromJsonFields rest n? a?

/-- Derived `Deserialize` for `FunctionData` applied to a JSON value:
requires an object with a text field `name` and an arbitrary field
`arguments`. -/
def FunctionData.fromJson : Json → Except String FunctionData
  | .obj fields => FunctionData.fromJsonFields fields none none
  | _ => .error "expected object"

/-- Models `serde_json::from_str::<FunctionData>`. -/
def FunctionData.from_str (s : String) : Except String FunctionData :=
  match jsonFromStr s with
  | .error e => .error e
  | .ok j => FunctionData.fromJson j

/-- The custom `impl Serialize for FunctionData` from the source: a struct
with the `name` field serialized as is and the `arguments` field serialized
as the text produced by `Value::to_string` (double-encoded JSON). -/
def FunctionData.toJson (fd : FunctionData) : Json :=
  .obj [("name", .str fd.name), ("arguments", .str fd.arguments.toString)]

/-- Union `ToolCall` from the source: a tagged union with the single variant
`Function { id, function }`. -/
inductive ToolCall where
  | function (id : String) (function : FunctionData)

/-- Serialization of `ToolCall` (internally tagged with `type`, lowercase
variant name). -/
def ToolCall.toJson : ToolCall → Json
  | .function id f =>
    .obj [("type", .str "function"), ("id", .str id), ("function", f.toJson)]

/-- Union `Message` from the source: a union tagged by `role`. Only the assistant
variant carries optional content and optional tool calls. -/
inductive Message where
  | user (content : String)
  | assistant (content : Option String) (tool_calls : Option (List ToolCall))
  | system (content : String)
  | tool (content : String)

/-- Serialization of `Message`: tagged with `role`; the assistant variant
serializes `content` always (`null` when absent) and skips `tool_calls`
entirely when it is absent (`skip_serializing_if = "Option::is_none"`). -/
def Message.toJson : Message → Json
  | .user content => .obj [("role", .str "user"), ("content", .str content)]
  | .assistant content tool_calls =>
    .obj ([("role", .str "assistant"),
           ("content", match content with | some s => .str s | none => .null)] ++
          (match tool_calls with
           | none => []
           | some tcs => [("tool_calls", .arr (tcs.map ToolCall.toJson))]))
  | .system content => .obj [("role", .str "system"), ("content", .str content)]
  | .tool content => .obj [("role", .str "tool"), ("content", .str content)]

/-- Boolean prefix test on character lists. -/
def isPrefixList : List Char → List Char → Bool
  | [], _ => true
  | _ :: _, [] => false
  | p :: ps, c :: cs => p == c && isPrefixList ps cs

/-- Split a character list around the first occurrence of `pat`: returns the
part before the occurrence and the part after it. Models `str::find` (and
the regex engine's leftmost-occurrence search). -/
def splitFirst (pat : List Char) : List Char → Option (List Char × List Char)
  | [] => if isPrefixList pat [] then some ([], []) else none
  | c :: rest =>
    if isPrefixList pat (c :: rest) then some ([], (c :: rest).drop pat.length)
    else
      match splitFirst pat rest with
      | none => none
      | some (b, a) => some (c :: b, a)

/-- Models `str::find(pat).is_some()`. -/
def containsTag (pat s : List Char) : Bool := (splitFirst pat s).isSome

/-- The opening marker `<tool_call>`. -/
def openTag : List Char := "<tool_call>".data

/-- The closing marker `</tool_call>`. -/
def closeTag : List Char := "</tool_call>".data

/-- Models `content.replace("\n", "")`: remove every line-feed character. -/
def stripNewlines (s : String) : List Char := s.data.filter (fun c => c != '\n')

/-- Fueled scanner equivalent to iterating the regex
`<tool_call>(.*?)</tool_call>`: repeatedly find the next opening marker, then
the nearest following closing marker, capture the text in between, and
continue after the closing marker. One unit of fuel is spent per captured
span; since each span consumes both markers (23 characters), fuel equal to
the input length never runs out early. -/
def extractSpansFuel : Nat → List Char → List (List Char)
  | 0, _ => []
  | fuel + 1, s =>
    match splitFirst openTag s with
    | none => []
    | some p =>
      match splitFirst closeTag p.2 with
      | none => []
      | some q => q.1 :: extractSpansFuel fuel q.2

/-- All captured spans of the markup regex over `s`, leftmost first,
non-overlapping. -/
def extractSpans (s : List Char) : List (List Char) := extractSpansFuel s.length s

/-- Rust whitespace used by `str::trim` (ASCII subset; the inputs trimmed
here never carry other Unicode whitespace). -/
def isRustWs (c : Char) : Bool := c = ' ' || c = '\t' || c = '\n' || c = Char.ofNat 13

/-- Models `str::trim`: drop whitespace from both ends. -/
def trimChars (s : List Char) : List Char :=
  ((s.dropWhile isRustWs).reverse.dropWhile isRustWs).reverse

/-- Decode one captured span: trim it, decode it as `FunctionData` and wrap
it as `ToolCall::Function` with the fixed synthetic identifier `"func"`. -/
def decodeSpan (sp : List Char) : Except String ToolCall :=
  match FunctionData.from_str (String.mk (trimChars sp)) with
  | .error e => .error e
  | .ok function_data => .ok (.function "func" function_data)

/-- Models `collect::<Result<Vec<ToolCall>, _>>()` over the decoded spans: stop at
the first failing span, otherwise collect every decoded call in order. -/
def collectToolCalls : List (List Char) → Except String (List ToolCall)
  | [] => .ok []
  | sp :: rest =>
    match decodeSpan sp with
    | .error e => .error e
    | .ok tc =>
      match collectToolCalls rest with
      | .error e => .error e
      | .ok tcs => .ok (tc :: tcs)

/-- Function `Message::into_tool_calls_response` from the source, as a state-passing
function: the returned message is the state of `self` on `Ok(())`, and an
error is returned exactly when the Rust code propagates one (in which case
the Rust `self` is still unmodified, the error being raised before the
`tool_calls.insert`/`content.take` mutations). -/
def Message.into_tool_calls_response : Message → Except String Message
  | .assistant (some optional_content) tool_calls =>
    if containsTag openTag optional_content.data ||
        containsTag closeTag optional_content.data then
      match collectToolCalls (extractSpans (stripNewlines optional_content)) with
      | .error e => .error e
      | .ok items => .ok (.assistant none (some items))
    else .ok (.assistant (some optional_content) tool_calls)
  | m => .ok m

/-- Struct `Usage` from the source. -/
structure Usage where
  prompt_tokens : Nat
  completion_tokens : Nat
  total_tokens : Nat

/-- Struct `Choice` from the source. -/
structure Choice where
  message : Message
  index : Nat
  finish_reason : String

/-- Struct `Completion` from the source. -/
structure Completion where
  choices : List Choice
  object : String
  id : String
  model : String
  created : Nat
  usage : Usage

/-- The body of the loop in `Completion::parse` applied to one choice:
extract tool calls from the message, then normalize the finish reason
(`"tool_calls"` when the assistant content is absent, else `"end_turn"`
rewritten to `"stop"`, else unchanged; non-assistant messages leave the
finish reason alone). -/
def processChoice (x : Choice) : Except String Choice :=
  match x.message.into_tool_calls_response with
  | .error e => .error e
  | .ok m =>
    match m with
    | .assistant content tc =>
      if content.isNone then
        .ok { message := .assistant content tc, index := x.index,
              finish_reason := "tool_calls" }
      else if x.finish_reason = "end_turn" then
        .ok { message := .assistant content tc, index := x.index,
              finish_reason := "stop" }
      else
        .ok { message := .assistant content tc, index := x.index,
              finish_reason := x.finish_reason }
    | m2 => .ok { message := m2, index := x.index, finish_reason := x.finish_reason }

/-- The in-place loop of `Completion::parse` over the choices vector, as a
state-passing function: returns the state of the vector when the loop ends
(processed prefix, then — on failure — the failing choice and the untouched
suffix) together with the propagated error, if any. -/
def parseChoices : List Choice → List Choice × Option String
  | [] => ([], none)
  | x :: xs =>
    match processChoice x with
    | .error e => (x :: xs, some e)
    | .ok x2 =>
      let r := parseChoices xs
      (x2 :: r.1, r.2)

/-- Function `Completion::parse` from the source: process every choice in order,
fail-fast on the first error, otherwise return the mutated completion. -/
def Completion.parse (c : Completion) : Except String Completion :=
  match (parseChoices c.choices).2 with
  | some e => .error e
  | none => .ok { c with choices := (parseChoices c.choices).1 }

/-- Struct `Price` from the source (`f32` fields modelled as integers; no claim
depends on their values, they are pass-through bookkeeping). -/
structure Price where
  input : Int
  output : Int
  total : Int

/-- Struct `Words` from the source. -/
structure Words where
  input : Nat
  output : Nat
  total : Nat

/-- Struct `Model` from the source: a completion plus bookkeeping. -/
structure Model where
  completion : Completion
  price : Price
  words : Words

/-- Struct `CompletionData` from the source. The `HashMap<Box<str>, Model>` is
modelled as an association list in an arbitrary, unspecified order (a
`HashMap` guarantees no iteration order). -/
structure CompletionData where
  completions : List (String × Model)
  overall_price : Price
  overall_words : Words

/-- Function `CompletionData::get_completion` from the source:
`self.completions.into_values().map(|x| x.completion).next().unwrap()`.
The `.unwrap()` panic on an empty map is modelled by `none`. -/
def CompletionData.get_completion (self : CompletionData) : Option Completion :=
  (self.completions.map (fun x => x.2.completion)).head?

/-- The serde `role` tag of a message. -/
def Message.role : Message → String
  | .user _ => "user"
  | .assistant _ _ => "assistant"
  | .system _ => "system"
  | .tool _ => "tool"

/-- A call of `self.into_tool_calls_response()` on a mutable borrow, Rust
style: on `Ok(())` the receiver holds the new state, on `Err` the receiver is
unchanged (the failure is raised before any field is written). -/
def runExtract (m : Message) : Message × Option String :=
  match m.into_tool_calls_response with
  | .ok m2 => (m2, none)
  | .error e => (m, some e)

/-! ### Concrete inputs used by witnesses and counterexamples -/

/-- Scenario A content: one well-formed markup span. -/
def scenarioAContent : String :=
  "<tool_call>\x7b\"name\":\"lookup\",\"arguments\":\x7b\"id\":7\x7d\x7d</tool_call>"

/-- The function data decoded from the Scenario A span. -/
def lookupFD : FunctionData := ⟨"lookup", .obj [("id", .num 7)]⟩

/-- A choice whose message carries the Scenario A markup. -/
def goodChoice : Choice := ⟨.assistant (some scenarioAContent) none, 0, "end_turn"⟩

/-- Choice `goodChoice` after processing. -/
def goodParsedChoice : Choice :=
  ⟨.assistant none (some [.function "func" lookupFD]), 0, "tool_calls"⟩

/-- A choice whose markup span is not valid JSON. -/
def badChoice : Choice := ⟨.assistant (some "<tool_call>oops</tool_call>") none, 1, "stop"⟩

/-- A plain-text assistant choice. -/
def plainChoice : Choice := ⟨.assistant (some "Hello world") none, 2, "end_turn"⟩

/-- Choice `plainChoice` after processing. -/
def plainParsedChoice : Choice := ⟨.assistant (some "Hello world") none, 2, "stop"⟩

/-- A completion whose middle choice fails to decode. -/
def wCompletion : Completion :=
  ⟨[goodChoice, badChoice, plainChoice], "chat.completion", "id1", "model1", 5, ⟨1, 2, 3⟩⟩

/-- A completion every choice of which processes successfully. -/
def okCompletion : Completion :=
  ⟨[goodChoice, plainChoice], "chat.completion", "id1", "model1", 5, ⟨1, 2, 3⟩⟩

/-- Completion `okCompletion` after parsing. -/
def okParsedCompletion : Completion :=
  ⟨[goodParsedChoice, plainParsedChoice], "chat.completion", "id1", "model1", 5, ⟨1, 2, 3⟩⟩

/-- Content in which both markers are broken by a line feed: the raw text
contains neither `<tool_call>` nor `</tool_call>`, while its newline-stripped
text contains one well-formed, decodable span. -/
def brokenMarkerContent : String :=
  "<tool\n_call>\x7b\"name\":\"a\",\"arguments\":1\x7d</tool\n_call>"

/-- Scenario C content: two sequential markup spans. -/
def twoSpanContent : String :=
  "<tool_call>\x7b\"name\":\"a\",\"arguments\":1\x7d</tool_call> and <tool_call>\x7b\"name\":\"b\",\"arguments\":2\x7d</tool_call>"

/-- A choice whose message carries the Scenario C markup. -/
def twoSpanChoice : Choice := ⟨.assistant (some twoSpanContent) none, 3, "end_turn"⟩

/-- A `CompletionData` with exactly one entry. -/
def singleData : CompletionData :=
  ⟨[("m1", ⟨okCompletion, ⟨0, 0, 0⟩, ⟨0, 0, 0⟩⟩)], ⟨0, 0, 0⟩, ⟨0, 0, 0⟩⟩

/-- The JSON object the Scenario A span decodes from. -/
def sampleFunctionJson : Json :=
  .obj [("name", .str "lookup"), ("arguments", .obj [("id", .num 7)])]

/-- First value bound to a key in a JSON object field list (used to relate a
decoded `FunctionData` to the fields it came from). -/
def findField (key : String) : List (String × Json) → Option Json
  | [] => none
  | (k, v) :: rest => if k = key then some v else findField key rest

/-! ### Helper lemmas -/

/-- A successful prefix test bounds the pattern length. -/
theorem isPrefixList_length {pat s : List Char} (h : isPrefixList pat s = true) :
    pat.length ≤ s.length := by
  induction pat generalizing s with
  | nil => simp
  | cons p ps ih =>
    cases s with
    | nil => simp [isPrefixList] at h
    | cons c cs =>
      simp only [isPrefixList, Bool.and_eq_true] at h
      have := ih h.2
      simp only [List.length_cons]
      omega

/-- Lemma: `splitFirst` only shortens its input: the part after the occurrence,
together with the pattern, fits in the input. -/
theorem splitFirst_length {pat s : List Char} {p : List Char × List Char}
    (h : splitFirst pat s = some p) : p.2.length + pat.length ≤ s.length := by
  induction s generalizing p with
  | nil =>
    simp only [splitFirst] at h
    split at h
    · rename_i hpre
      have := isPrefixList_length hpre
      cases h
      simpa using this
    · cases h
  | cons c rest ih =>
    simp only [splitFirst] at h
    split at h
    · rename_i hpre
      have hl := isPrefixList_length hpre
      cases h
      simp only [List.length_drop, List.length_cons] at hl ⊢
      omega
    · cases hrec : splitFirst pat rest with
      | none => rw [hrec] at h; cases h
      | some q =>
        rw [hrec] at h
        cases h
        have := ih hrec
        simp only [List.length_cons]
        omega

/-- Searching for the opening marker in empty text finds nothing. -/
theorem splitFirst_open_nil : splitFirst openTag [] = none := by decide

/-- Scanner equation: no opening marker, no spans. -/
theorem extractSpansFuel_none {fuel : Nat} {s : List Char}
    (h : splitFirst openTag s = none) : extractSpansFuel (fuel + 1) s = [] := by
  simp [extractSpansFuel, h]

/-- Scanner equation: an opening marker with no closing marker after it
captures nothing. -/
theorem extractSpansFuel_noClose {fuel : Nat} {s : List Char}
    {p : List Char × List Char} (h : splitFirst openTag s = some p)
    (h2 : splitFirst closeTag p.2 = none) : extractSpansFuel (fuel + 1) s = [] := by
  simp [extractSpansFuel, h, h2]

/-- Scanner equation: capture the text between the first opening marker and
the nearest following closing marker, then continue after it. -/
theorem extractSpansFuel_step {fuel : Nat} {s : List Char}
    {p q : List Char × List Char} (h : splitFirst openTag s = some p)
    (h2 : splitFirst closeTag p.2 = some q) :
    extractSpansFuel (fuel + 1) s = q.1 :: extractSpansFuel fuel q.2 := by
  simp [extractSpansFuel, h, h2]

/-- The scanner does not depend on the fuel, as long as the fuel covers the
input length: the fuel formulation is equivalent to the unbounded loop. -/
theorem extractSpansFuel_congr (fuel : Nat) :
    ∀ (fuel2 : Nat) (s : List Char), s.length ≤ fuel → s.length ≤ fuel2 →
      extractSpansFuel fuel s = extractSpansFuel fuel2 s := by
  induction fuel with
  | zero =>
    intro fuel2 s h h2
    have hs : s = [] := List.length_eq_zero.mp (Nat.le_zero.mp h)
    subst hs
    cases fuel2 with
    | zero => rfl
    | succ f2 => rw [extractSpansFuel_none splitFirst_open_nil]; rfl
  | succ f ih =>
    intro fuel2 s h h2
    cases fuel2 with
    | zero =>
      have hs : s = [] := List.length_eq_zero.mp (Nat.le_zero.mp h2)
      subst hs
      rw [extractSpansFuel_none splitFirst_open_nil]; rfl
    | succ f2 =>
      cases hp : splitFirst openTag s with
      | none => rw [extractSpansFuel_none hp, extractSpansFuel_none hp]
      | some p =>
        cases hq : splitFirst closeTag p.2 with
        | none => rw [extractSpansFuel_noClose hp hq, extractSpansFuel_noClose hp hq]
        | some q =>
          rw [extractSpansFuel_step hp hq, extractSpansFuel_step hp hq]
          have l1 := splitFirst_length hp
          have l2 := splitFirst_length hq
          have hopen : openTag.length = 11 := by decide
          have hclose : closeTag.length = 12 := by decide
          rw [ih f2 q.2 (by omega) (by omega)]

/-- When every span decodes, the collect succeeds. -/
theorem collectToolCalls_ok_of_all (spans : List (List Char))
    (h : ∀ sp ∈ spans, ∃ t, decodeSpan sp = .ok t) :
    ∃ items, collectToolCalls spans = .ok items := by
  induction spans with
  | nil => exact ⟨[], rfl⟩
  | cons sp rest ih =>
    obtain ⟨t, ht⟩ := h sp (List.mem_cons_self sp rest)
    obtain ⟨items, hitems⟩ := ih (fun y hy => h y (List.mem_cons_of_mem sp hy))
    exact ⟨t :: items, by simp [collectToolCalls, ht, hitems]⟩

/-- A successful collect has one tool call per span. -/
theorem collectToolCalls_ok_length {spans : List (List Char)} {items : List ToolCall}
    (h : collectToolCalls spans = .ok items) : items.length = spans.length := by
  induction spans generalizing items with
  | nil =>
    simp only [collectToolCalls] at h
    cases h
    rfl
  | cons sp rest ih =>
    simp only [collectToolCalls] at h
    cases hd : decodeSpan sp with
    | error e => rw [hd] at h; cases h
    | ok t =>
      rw [hd] at h
      cases hr : collectToolCalls rest with
      | error e => rw [hr] at h; cases h
      | ok tcs =>
        rw [hr] at h
        cases h
        simp [ih hr]

/-- A successful collect decodes each span to the tool call at the same
position. -/
theorem collectToolCalls_ok_get {spans : List (List Char)} {items : List ToolCall}
    (h : collectToolCalls spans = .ok items) (i : Nat) (h1 : i < spans.length)
    (h2 : i < items.length) :
    decodeSpan (spans.get ⟨i, h1⟩) = .ok (items.get ⟨i, h2⟩) := by
  induction spans generalizing items i with
  | nil => simp at h1
  | cons sp rest ih =>
    simp only [collectToolCalls] at h
    cases hd : decodeSpan sp with
    | error e => rw [hd] at h; cases h
    | ok t =>
      rw [hd] at h
      cases hr : collectToolCalls rest with
      | error e => rw [hr] at h; cases h
      | ok tcs =>
        rw [hr] at h
        cases h
        cases i with
        | zero => simpa using hd
        | succ j =>
          simp only [List.get_cons_succ]
          exact ih hr j (by simpa using h1) (by simpa using h2)

/-- One failing span makes the whole collect fail. -/
theorem collectToolCalls_error_of_mem {spans : List (List Char)} {sp : List Char}
    {e : String} (hmem : sp ∈ spans) (hf : decodeSpan sp = .error e) :
    ∃ e2, collectToolCalls spans = .error e2 := by
  induction spans with
  | nil => cases hmem
  | cons hd rest ih =>
    rcases List.mem_cons.mp hmem with heq | hmem2
    · subst heq
      exact ⟨e, by simp [collectToolCalls, hf]⟩
    · cases hd2 : decodeSpan hd with
      | error e3 => exact ⟨e3, by simp [collectToolCalls, hd2]⟩
      | ok t =>
        obtain ⟨e2, h2⟩ := ih hmem2
        exact ⟨e2, by simp [collectToolCalls, hd2, h2]⟩

/-- Every successfully decoded span yields a `Function` call with the fixed
identifier `"func"` and the span's decoded function data. -/
theorem decodeSpan_ok_shape {sp : List Char} {t : ToolCall}
    (h : decodeSpan sp = .ok t) :
    ∃ fd, t = .function "func" fd ∧
      FunctionData.from_str (String.mk (trimChars sp)) = .ok fd := by
  simp only [decodeSpan] at h
  cases hf : FunctionData.from_str (String.mk (trimChars sp)) with
  | error e => rw [hf] at h; cases h
  | ok fd =>
    rw [hf] at h
    cases h
    exact ⟨fd, rfl, rfl⟩

/-- Loop equation: a failing choice stops the loop, leaving the whole
remaining vector (failing choice included) untouched. -/
theorem parseChoices_cons_error {x : Choice} {xs : List Choice} {e : String}
    (hx : processChoice x = .error e) :
    parseChoices (x :: xs) = (x :: xs, some e) := by
  simp [parseChoices, hx]

/-- Loop equation: a successfully processed choice is replaced by its
processed form and the loop continues. -/
theorem parseChoices_cons_ok {x : Choice} {xs : List Choice} {x2 : Choice}
    (hx : processChoice x = .ok x2) :
    parseChoices (x :: xs) = (x2 :: (parseChoices xs).1, (parseChoices xs).2) := by
  simp [parseChoices, hx]

/-- Processing a clean prefix commutes with list append in the parse loop. -/
theorem parseChoices_append_ok {pre pre2 : List Choice} (rest : List Choice)
    (h : parseChoices pre = (pre2, none)) :
    parseChoices (pre ++ rest) =
      (pre2 ++ (parseChoices rest).1, (parseChoices rest).2) := by
  induction pre generalizing pre2 with
  | nil =>
    simp only [parseChoices] at h
    cases h
    simp
  | cons x xs ih =>
    cases hx : processChoice x with
    | error e => rw [parseChoices_cons_error hx] at h; cases h
    | ok x2 =>
      rw [parseChoices_cons_ok hx, Prod.mk.injEq] at h
      obtain ⟨h1, h2⟩ := h
      have hxs : parseChoices xs = ((parseChoices xs).1, none) := by
        rw [← h2]
      have hih := ih hxs
      rw [← h1, List.cons_append, parseChoices_cons_ok hx, hih]
      simp

/-- Extraction preserves the role tag of a message. -/
theorem into_tool_calls_response_role {m m2 : Message}
    (h : m.into_tool_calls_response = .ok m2) : m2.role = m.role := by
  cases m with
  | assistant content tc =>
    cases content with
    | none =>
      simp only [Message.into_tool_calls_response] at h
      cases h
      rfl
    | some s =>
      simp only [Message.into_tool_calls_response] at h
      split at h
      · cases hc : collectToolCalls (extractSpans (stripNewlines s)) with
        | error e => rw [hc] at h; cases h
        | ok items => rw [hc] at h; cases h; rfl
      · cases h; rfl
  | user s => cases h; rfl
  | system s => cases h; rfl
  | tool s => cases h; rfl

/-- A processed choice keeps its index and its message role. -/
theorem processChoice_ok_frame {x x2 : Choice} (h : processChoice x = .ok x2) :
    x2.index = x.index ∧ x2.message.role = x.message.role := by
  simp only [processChoice] at h
  cases hm : x.message.into_tool_calls_response with
  | error e => rw [hm] at h; cases h
  | ok m =>
    rw [hm] at h
    have hrole := into_tool_calls_response_role hm
    cases m with
    | assistant content tc =>
      by_cases hc : content.isNone
      · simp only [hc, if_true] at h
        cases h
        exact ⟨rfl, hrole⟩
      · simp only [hc, if_false] at h
        by_cases hfr : x.finish_reason = "end_turn"
        · simp only [hfr, if_true] at h
          cases h
          exact ⟨rfl, hrole⟩
        · simp only [hfr, if_false] at h
          cases h
          exact ⟨rfl, hrole⟩
    | user s => cases h; exact ⟨rfl, hrole⟩
    | system s => cases h; exact ⟨rfl, hrole⟩
    | tool s => cases h; exact ⟨rfl, hrole⟩

/-- The parse loop preserves the number of choices and, position by
position, each choice's index and message role — both on full success and in
the state left behind by a failure. -/
theorem parseChoices_frame (cs : List Choice) :
    (parseChoices cs).1.length = cs.length ∧
    ∀ (i : Nat) (h1 : i < cs.length) (h2 : i < (parseChoices cs).1.length),
      ((parseChoices cs).1.get ⟨i, h2⟩).index = (cs.get ⟨i, h1⟩).index ∧
      ((parseChoices cs).1.get ⟨i, h2⟩).message.role = (cs.get ⟨i, h1⟩).message.role := by
  induction cs with
  | nil => exact ⟨rfl, fun i h1 => by simp at h1⟩
  | cons x xs ih =>
    cases hx : processChoice x with
    | error e =>
      rw [parseChoices_cons_error hx]
      exact ⟨rfl, fun i h1 h2 => ⟨rfl, rfl⟩⟩
    | ok x2 =>
      rw [parseChoices_cons_ok hx]
      constructor
      · simp [ih.1]
      · intro i h1 h2
        cases i with
        | zero =>
          have hf := processChoice_ok_frame hx
          simpa using hf
        | succ j =>
          simp only [List.get_cons_succ]
          exact ih.2 j (by simp only [List.length_cons] at h1; omega)
            (by simp only [List.length_cons] at h2; omega)

/-- Extraction equation: markup detected and every span decoded — tool calls
are committed and the content is cleared. -/
theorem into_tool_calls_triggered_ok {s : String} {tc : Option (List ToolCall)}
    {items : List ToolCall}
    (hdet : (containsTag openTag s.data || containsTag closeTag s.data) = true)
    (hc : collectToolCalls (extractSpans (stripNewlines s)) = .ok items) :
    Message.into_tool_calls_response (.assistant (some s) tc) =
      .ok (.assistant none (some items)) := by
  simp [Message.into_tool_calls_response, hdet, hc]

/-- Extraction equation: markup detected but decoding failed — the error
propagates. -/
theorem into_tool_calls_triggered_error {s : String} {tc : Option (List ToolCall)}
    {e : String}
    (hdet : (containsTag openTag s.data || containsTag closeTag s.data) = true)
    (hc : collectToolCalls (extractSpans (stripNewlines s)) = .error e) :
    Message.into_tool_calls_response (.assistant (some s) tc) = .error e := by
  simp [Message.into_tool_calls_response, hdet, hc]

/-- Extraction equation: no marker in the raw content — the message is left
exactly as received. -/
theorem into_tool_calls_untriggered {s : String} {tc : Option (List ToolCall)}
    (hdet : (containsTag openTag s.data || containsTag closeTag s.data) = false) :
    Message.into_tool_calls_response (.assistant (some s) tc) =
      .ok (.assistant (some s) tc) := by
  simp [Message.into_tool_calls_response, hdet]

/-- A successful field-loop run relates the decoded `FunctionData` to the
field list: with no field seen yet, the decoded value is the (unique) value
bound to the required key. -/
theorem fromJsonFields_ok_lookup (fields : List (String × Json)) :
    ∀ (n? : Option String) (a? : Option Json) (fd : FunctionData),
      FunctionData.fromJsonFields fields n? a? = .ok fd →
      ((n? = none → findField "name" fields = some (.str fd.name)) ∧
       (∀ n, n? = some n → fd.name = n) ∧
       (a? = none → findField "arguments" fields = some fd.arguments) ∧
       (∀ a, a? = some a → fd.arguments = a)) := by
  induction fields with
  | nil =>
    intro n? a? fd h
    cases n? with
    | none => simp [FunctionData.fromJsonFields] at h
    | some n =>
      cases a? with
      | none => simp [FunctionData.fromJsonFields] at h
      | some a =>
        simp only [FunctionData.fromJsonFields] at h
        cases h
        refine ⟨fun hn => by simp at hn, fun n2 hn => by cases hn; rfl,
                fun ha => by simp at ha, fun a2 ha => by cases ha; rfl⟩
  | cons kv rest ih =>
    intro n? a? fd h
    obtain ⟨k, v⟩ := kv
    simp only [FunctionData.fromJsonFields] at h
    by_cases hk : k = "name"
    · subst hk
      rw [if_pos rfl] at h
      cases n? with
      | some n => simp at h
      | none =>
        cases v with
        | str sv =>
          have hrec := ih (some sv) a? fd h
          have hname : fd.name = sv := hrec.2.1 sv rfl
          refine ⟨fun _ => ?_, fun n2 hn => by simp at hn, fun ha => ?_, hrec.2.2.2⟩
          · simp [findField, hname]
          · have := hrec.2.2.1 ha
            simp only [findField]
            rw [if_neg (by decide)]
            exact this
        | null => simp at h
        | bool b => simp at h
        | num n => simp at h
        | arr xs => simp at h
        | obj fs => simp at h
    · rw [if_neg hk] at h
      by_cases ha : k = "arguments"
      · subst ha
        rw [if_pos rfl] at h
        cases a? with
        | some a => simp at h
        | none =>
          have hrec := ih n? (some v) fd h
          have hargs : fd.arguments = v := hrec.2.2.2 v rfl
          refine ⟨fun hn => ?_, hrec.2.1, fun _ => ?_, fun a2 hha => by simp at hha⟩
          · have := hrec.1 hn
            simp only [findField]
            rw [if_neg (by decide)]
            exact this
          · simp [findField, hargs]
      · rw [if_neg ha] at h
        have hrec := ih n? a? fd h
        refine ⟨fun hn => ?_, hrec.2.1, fun hha => ?_, hrec.2.2.2⟩
        · have := hrec.1 hn
          simp only [findField]
          rw [if_neg hk]
          exact this
        · have := hrec.2.2.1 hha
          simp only [findField]
          rw [if_neg ha]
          exact this

/-! ### Claim theorems -/

/-- C5: finish-reason normalization for an assistant-role choice after
extraction. Rule 1 (priority): post-extraction content absent forces
`finish_reason = "tool_calls"`, overwriting any provider value. Rule 2:
otherwise `"end_turn"` is rewritten to `"stop"`. Otherwise the finish reason
is unchanged. Rule 1 firing means Rule 2 never runs for that choice. -/
theorem C5_finish_reason_normalization (x : Choice) (m2 : Message)
    (content : Option String) (tc : Option (List ToolCall))
    (hex : x.message.into_tool_calls_response = .ok m2)
    (hm : m2 = .assistant content tc) :
    (content = none →
      processChoice x = .ok ⟨m2, x.index, "tool_calls"⟩) ∧
    (content ≠ none → x.finish_reason = "end_turn" →
      processChoice x = .ok ⟨m2, x.index, "stop"⟩) ∧
    (content ≠ none → x.finish_reason ≠ "end_turn" →
      processChoice x = .ok ⟨m2, x.index, x.finish_reason⟩) := by
  subst hm
  refine ⟨?_, ?_, ?_⟩
  · intro hc
    subst hc
    simp [processChoice, hex]
  · intro hc hfr
    cases content with
    | none => exact absurd rfl hc
    | some s => simp [processChoice, hex, hfr]
  · intro hc hfr
    cases content with
    | none => exact absurd rfl hc
    | some s => simp [processChoice, hex, hfr]

/-- C5 witness: a choice with absent content and provider finish reason
`"end_turn"` is normalized to `"tool_calls"` (Rule 1 wins over Rule 2). -/
theorem C5_witness :
    processChoice ⟨.assistant none none, 0, "end_turn"⟩ =
      .ok ⟨.assistant none none, 0, "tool_calls"⟩ :=
  (C5_finish_reason_normalization ⟨.assistant none none, 0, "end_turn"⟩
    (.assistant none none) none none rfl rfl).1 rfl

/-- C6: extraction is idempotent on processed messages — an assistant
message whose content is already absent is returned unchanged, whatever its
tool calls, and extraction succeeds. -/
theorem C6_idempotent_extraction (tc : Option (List ToolCall)) :
    Message.into_tool_calls_response (.assistant none tc) = .ok (.assistant none tc) := by
  cases tc <;> rfl

/-- C7: non-assistant messages (user, system, tool) are untouched by
extraction (a successful no-op) and their choice's finish reason is left
unchanged by the normalizer. -/
theorem C7_non_assistant_untouched (s : String) (i : Nat) (fr : String) :
    (Message.into_tool_calls_response (.user s) = .ok (.user s) ∧
      processChoice ⟨.user s, i, fr⟩ = .ok ⟨.user s, i, fr⟩) ∧
    (Message.into_tool_calls_response (.system s) = .ok (.system s) ∧
      processChoice ⟨.system s, i, fr⟩ = .ok ⟨.system s, i, fr⟩) ∧
    (Message.into_tool_calls_response (.tool s) = .ok (.tool s) ∧
      processChoice ⟨.tool s, i, fr⟩ = .ok ⟨.tool s, i, fr⟩) :=
  ⟨⟨rfl, rfl⟩, ⟨rfl, rfl⟩, ⟨rfl, rfl⟩⟩

/-- C8: `get_completion` on an empty mapping hits the `.unwrap()` (modelled
as `none`, the unrecoverable-panic case); on a singleton mapping it returns
that entry's completion unchanged; on any non-empty mapping it returns the
completion of some entry (the head of the arbitrarily ordered entry list —
no guarantee which entry that is when several exist). -/
theorem C8_get_completion (d : CompletionData) :
    (d.completions = [] → d.get_completion = none) ∧
    (∀ k m, d.completions = [(k, m)] → d.get_completion = some m.completion) ∧
    (d.completions ≠ [] → ∃ entry ∈ d.completions,
      d.get_completion = some entry.2.completion) := by
  refine ⟨?_, ?_, ?_⟩
  · intro h
    simp [CompletionData.get_completion, h]
  · intro k m h
    simp [CompletionData.get_completion, h]
  · intro h
    cases hc : d.completions with
    | nil => exact absurd hc h
    | cons entry rest =>
      exact ⟨entry, by simp [hc], by simp [CompletionData.get_completion, hc]⟩

/-- C8 witness: a mapping with exactly one entry yields that entry's
completion. -/
theorem C8_witness : singleData.get_completion = some okCompletion :=
  (C8_get_completion singleData).2.1 "m1" ⟨okCompletion, ⟨0, 0, 0⟩, ⟨0, 0, 0⟩⟩ rfl

/-- C9: a `FunctionData` decoded from a JSON object re-encodes with `name`
preserved exactly (the value bound to `"name"` in the source object) and
`arguments` emitted as a single JSON text string equal to the canonical
serialization of the decoded arguments value (double encoding); and an
assistant message without tool calls serializes with no `tool_calls` field
at all (only `role` and `content`). -/
theorem C9_round_trip (j : Json) (fd : FunctionData)
    (h : FunctionData.fromJson j = .ok fd) :
    (FunctionData.toJson fd =
      .obj [("name", .str fd.name), ("arguments", .str fd.arguments.toString)]) ∧
    (∃ fields, j = .obj fields ∧
      findField "name" fields = some (.str fd.name) ∧
      findField "arguments" fields = some fd.arguments) ∧
    (∀ c : Option String,
      Message.toJson (.assistant c none) =
        .obj [("role", .str "assistant"),
              ("content", match c with | some s => .str s | none => .null)]) := by
  refine ⟨rfl, ?_, ?_⟩
  · cases j with
    | obj fields =>
      have hrec := fromJsonFields_ok_lookup fields none none fd h
      exact ⟨fields, rfl, hrec.1 rfl, hrec.2.2.1 rfl⟩
    | null => simp [FunctionData.fromJson] at h
    | bool b => simp [FunctionData.fromJson] at h
    | num n => simp [FunctionData.fromJson] at h
    | str s => simp [FunctionData.fromJson] at h
    | arr xs => simp [FunctionData.fromJson] at h
  · intro c
    cases c <;> rfl

/-- C9 witness: the Scenario A function data, decoded from its JSON object,
re-encodes with the same name and the double-encoded arguments text; an
assistant message with absent tool calls serializes without the field. -/
theorem C9_witness :
    FunctionData.toJson lookupFD =
      .obj [("name", .str lookupFD.name),
            ("arguments", .str lookupFD.arguments.toString)] ∧
    Message.toJson (.assistant none none) =
      .obj [("role", .str "assistant"), ("content", .null)] :=
  ⟨(C9_round_trip sampleFunctionJson lookupFD rfl).1,
   (C9_round_trip sampleFunctionJson lookupFD rfl).2.2 none⟩

/-- C1 counterexample: `brokenMarkerContent` has, in its newline-stripped
text, exactly one well-formed, decodable markup span (the scan the spec
defines operates on newline-stripped text), yet — because the raw text
contains neither marker — processing leaves the message byte-for-byte
unchanged: no tool calls, content still present, finish reason untouched.
This refutes the claim as stated; detection on the raw text is a necessary
extra hypothesis. -/
theorem C1_counterexample :
    (extractSpans (stripNewlines brokenMarkerContent)).length = 1 ∧
    collectToolCalls (extractSpans (stripNewlines brokenMarkerContent)) =
      .ok [.function "func" ⟨"a", .num 1⟩] ∧
    (containsTag openTag brokenMarkerContent.data ||
      containsTag closeTag brokenMarkerContent.data) = false ∧
    Message.into_tool_calls_response (.assistant (some brokenMarkerContent) none) =
      .ok (.assistant (some brokenMarkerContent) none) ∧
    processChoice ⟨.assistant (some brokenMarkerContent) none, 0, "stop"⟩ =
      .ok ⟨.assistant (some brokenMarkerContent) none, 0, "stop"⟩ :=
  ⟨rfl, rfl, rfl, rfl, rfl⟩

/-- C1 (amended): for an assistant message whose raw content contains the
opening or closing marker and whose newline-stripped content contains k ≥ 1
markup spans that all decode, processing the containing choice commits
exactly k `ToolCall::Function` entries in left-to-right span order, each
with the synthetic identifier `"func"` and the decoded function data of its
span; the content becomes absent and the finish reason becomes
`"tool_calls"`. -/
theorem C1_tool_call_extraction (x : Choice) (s : String)
    (tc : Option (List ToolCall)) (items : List ToolCall)
    (hmsg : x.message = .assistant (some s) tc)
    (hdet : (containsTag openTag s.data || containsTag closeTag s.data) = true)
    (hk : 1 ≤ (extractSpans (stripNewlines s)).length)
    (hdec : collectToolCalls (extractSpans (stripNewlines s)) = .ok items) :
    processChoice x = .ok ⟨.assistant none (some items), x.index, "tool_calls"⟩ ∧
    items.length = (extractSpans (stripNewlines s)).length ∧
    1 ≤ items.length ∧
    (∀ (i : Nat) (h1 : i < (extractSpans (stripNewlines s)).length)
        (h2 : i < items.length),
      decodeSpan ((extractSpans (stripNewlines s)).get ⟨i, h1⟩) =
        .ok (items.get ⟨i, h2⟩)) ∧
    (∀ t ∈ items, ∃ fd, t = .function "func" fd ∧
      ∃ i : Fin (extractSpans (stripNewlines s)).length,
        FunctionData.from_str
          (String.mk (trimChars ((extractSpans (stripNewlines s)).get i))) = .ok fd) := by
  have hlen := collectToolCalls_ok_length hdec
  refine ⟨?_, hlen, ?_, ?_, ?_⟩
  · have hresp := @into_tool_calls_triggered_ok s tc items hdet hdec
    simp [processChoice, hmsg, hresp]
  · omega
  · intro i h1 h2
    exact collectToolCalls_ok_get hdec i h1 h2
  · intro t ht
    obtain ⟨i, hi⟩ := List.mem_iff_get.mp ht
    have h1 : (i : Nat) < (extractSpans (stripNewlines s)).length := by
      have := i.isLt; omega
    have hd : decodeSpan ((extractSpans (stripNewlines s)).get ⟨(i : Nat), h1⟩) = .ok t := by
      rw [← hi]
      exact collectToolCalls_ok_get hdec i h1 i.isLt
    obtain ⟨fd, hfd, hstr⟩ := decodeSpan_ok_shape hd
    exact ⟨fd, hfd, ⟨(i : Nat), h1⟩, hstr⟩

/-- C1 witness: the two-span Scenario C content yields exactly two function
calls, in source order, both with identifier `"func"`, content cleared and
finish reason `"tool_calls"`. -/
theorem C1_witness :
    processChoice twoSpanChoice =
      .ok ⟨.assistant none
            (some [.function "func" ⟨"a", .num 1⟩, .function "func" ⟨"b", .num 2⟩]),
          3, "tool_calls"⟩ ∧
    ([ToolCall.function "func" ⟨"a", .num 1⟩,
      ToolCall.function "func" ⟨"b", .num 2⟩]).length =
      (extractSpans (stripNewlines twoSpanContent)).length :=
  ⟨(C1_tool_call_extraction twoSpanChoice twoSpanContent none
      [.function "func" ⟨"a", .num 1⟩, .function "func" ⟨"b", .num 2⟩]
      rfl rfl (by decide) rfl).1,
   (C1_tool_call_extraction twoSpanChoice twoSpanContent none
      [.function "func" ⟨"a", .num 1⟩, .function "func" ⟨"b", .num 2⟩]
      rfl rfl (by decide) rfl).2.1⟩

/-- C2 counterexample: on content consisting of the closing marker alone,
extraction is triggered and succeeds, the content is cleared — but
`tool_calls` is set to an empty list, not a list with at least one entry.
The claim's "at least 1 entry" fails; `tool_calls` merely becomes present. -/
theorem C2_counterexample :
    (containsTag openTag "</tool_call>".data ||
      containsTag closeTag "</tool_call>".data) = true ∧
    Message.into_tool_calls_response (.assistant (some "</tool_call>") none) =
      .ok (.assistant none (some [])) ∧
    ([] : List ToolCall).length = 0 :=
  ⟨rfl, rfl, rfl⟩

/-- C2 (amended): if extraction is triggered (raw content contains either
marker) and succeeds, the content becomes absent and `tool_calls` becomes
present, holding the decoded spans in order — at least one entry whenever
the newline-stripped content contains at least one complete span, but
possibly zero entries when a marker appears without a complete span; and an
assistant message whose content contains neither marker is left
byte-for-byte unchanged. -/
theorem C2_extraction_invariant :
    (∀ (s : String) (tc : Option (List ToolCall)) (m2 : Message),
      (containsTag openTag s.data || containsTag closeTag s.data) = true →
      Message.into_tool_calls_response (.assistant (some s) tc) = .ok m2 →
      ∃ items, m2 = .assistant none (some items) ∧
        collectToolCalls (extractSpans (stripNewlines s)) = .ok items ∧
        (1 ≤ (extractSpans (stripNewlines s)).length → 1 ≤ items.length)) ∧
    (∀ (s : String) (tc : Option (List ToolCall)),
      (containsTag openTag s.data || containsTag closeTag s.data) = false →
      Message.into_tool_calls_response (.assistant (some s) tc) =
        .ok (.assistant (some s) tc)) := by
  constructor
  · intro s tc m2 hdet hok
    cases hc : collectToolCalls (extractSpans (stripNewlines s)) with
    | error e =>
      rw [into_tool_calls_triggered_error hdet hc] at hok
      cases hok
    | ok items =>
      rw [into_tool_calls_triggered_ok hdet hc] at hok
      cases hok
      refine ⟨items, rfl, rfl, fun h1 => ?_⟩
      rw [collectToolCalls_ok_length hc]
      exact h1
  · intro s tc hdet
    exact into_tool_calls_untriggered hdet

/-- C2 witness: the triggered-and-succeeded branch on Scenario A content,
and the untriggered branch on plain text. -/
theorem C2_witness :
    (∃ items,
      (Message.assistant none (some [ToolCall.function "func" lookupFD])) =
        .assistant none (some items) ∧
      collectToolCalls (extractSpans (stripNewlines scenarioAContent)) = .ok items ∧
      (1 ≤ (extractSpans (stripNewlines scenarioAContent)).length →
        1 ≤ items.length)) ∧
    Message.into_tool_calls_response (.assistant (some "Hello world") none) =
      .ok (.assistant (some "Hello world") none) :=
  ⟨C2_extraction_invariant.1 scenarioAContent none
     (.assistant none (some [.function "func" lookupFD])) rfl rfl,
   C2_extraction_invariant.2 "Hello world" none rfl⟩

/-- C3: extraction is atomic per message — if any captured span fails to
decode, the message-level extraction returns an error and commits nothing:
in the Rust call the receiver's `content` and `tool_calls` are exactly as on
entry, the failure being raised before any mutation (the `runExtract`
conjunct states this receiver-unchanged reading explicitly). -/
theorem C3_atomic_failure (s : String) (tc : Option (List ToolCall))
    (sp : List Char) (e : String)
    (hdet : (containsTag openTag s.data || containsTag closeTag s.data) = true)
    (hmem : sp ∈ extractSpans (stripNewlines s))
    (hfail : decodeSpan sp = .error e) :
    ∃ e2, Message.into_tool_calls_response (.assistant (some s) tc) = .error e2 ∧
      runExtract (.assistant (some s) tc) = (.assistant (some s) tc, some e2) := by
  obtain ⟨e2, hc⟩ := collectToolCalls_error_of_mem hmem hfail
  refine ⟨e2, into_tool_calls_triggered_error hdet hc, ?_⟩
  simp [runExtract, @into_tool_calls_triggered_error s tc e2 hdet hc]

/-- C3 witness: a span that is not JSON makes the whole extraction fail with
the message left as received. -/
theorem C3_witness :
    ∃ e2, Message.into_tool_calls_response
        (.assistant (some "<tool_call>oops</tool_call>") none) = .error e2 ∧
      runExtract (.assistant (some "<tool_call>oops</tool_call>") none) =
        (.assistant (some "<tool_call>oops</tool_call>") none, some e2) :=
  C3_atomic_failure "<tool_call>oops</tool_call>" none "oops".data "invalid JSON"
    rfl (by decide) rfl

/-- C4: the orchestrator is fail-fast with partial mutation — when the
choice `x` after a cleanly processed prefix is the first to fail, `parse`
returns that error, the loop state keeps the processed prefix's mutations,
and `x` and every later choice are exactly as on input. -/
theorem C4_fail_fast (c : Completion) (pre post : List Choice) (x : Choice)
    (pre2 : List Choice) (e : String)
    (hc : c.choices = pre ++ x :: post)
    (hpre : parseChoices pre = (pre2, none))
    (hx : processChoice x = .error e) :
    c.parse = .error e ∧
    parseChoices c.choices = (pre2 ++ x :: post, some e) := by
  have hlist : parseChoices (pre ++ x :: post) = (pre2 ++ x :: post, some e) := by
    rw [parseChoices_append_ok (x :: post) hpre, parseChoices_cons_error hx]
  constructor
  · simp [Completion.parse, hc, hlist]
  · rw [hc, hlist]

/-- C4 witness: in a three-choice completion whose middle choice has an
undecodable span, parse fails with that error, the first choice keeps its
extracted tool calls and normalized finish reason, and the failing and last
choices are untouched. -/
theorem C4_witness :
    wCompletion.parse = .error "invalid JSON" ∧
    parseChoices wCompletion.choices =
      ([goodParsedChoice] ++ badChoice :: [plainChoice], some "invalid JSON") :=
  C4_fail_fast wCompletion [goodChoice] [plainChoice] badChoice
    [goodParsedChoice] "invalid JSON" rfl rfl rfl

/-- C10: parse never modifies the completion's `id`, `object`, `model`,
`created` or `usage` fields, nor any choice's `index` (nor its message's
role); this holds for the returned completion on success and — via the loop
state — position by position even when a failure stops the loop. -/
theorem C10_frame (c : Completion) :
    (∀ c2, c.parse = .ok c2 →
      c2.object = c.object ∧ c2.id = c.id ∧ c2.model = c.model ∧
      c2.created = c.created ∧ c2.usage = c.usage ∧
      c2.choices.length = c.choices.length ∧
      ∀ (i : Nat) (h1 : i < c.choices.length) (h2 : i < c2.choices.length),
        (c2.choices.get ⟨i, h2⟩).index = (c.choices.get ⟨i, h1⟩).index ∧
        (c2.choices.get ⟨i, h2⟩).message.role = (c.choices.get ⟨i, h1⟩).message.role) ∧
    ((parseChoices c.choices).1.length = c.choices.length ∧
      ∀ (i : Nat) (h1 : i < c.choices.length)
          (h2 : i < (parseChoices c.choices).1.length),
        ((parseChoices c.choices).1.get ⟨i, h2⟩).index =
          (c.choices.get ⟨i, h1⟩).index) := by
  constructor
  · intro c2 h
    simp only [Completion.parse] at h
    cases hsnd : (parseChoices c.choices).2 with
    | some e => rw [hsnd] at h; cases h
    | none =>
      rw [hsnd] at h
      cases h
      have hf := parseChoices_frame c.choices
      exact ⟨rfl, rfl, rfl, rfl, rfl, hf.1, fun i h1 h2 => hf.2 i h1 h2⟩
  · have hf := parseChoices_frame c.choices
    exact ⟨hf.1, fun i h1 h2 => (hf.2 i h1 h2).1⟩

/-- C10 witness: parsing a two-choice completion leaves its identity fields
and usage untouched and keeps the number of choices. -/
theorem C10_witness :
    okParsedCompletion.id = okCompletion.id ∧
    okParsedCompletion.usage = okCompletion.usage ∧
    okParsedCompletion.choices.length = okCompletion.choices.length :=
  ⟨((C10_frame okCompletion).1 okParsedCompletion rfl).2.1,
   ((C10_frame okCompletion).1 okParsedCompletion rfl).2.2.2.2.1,
   ((C10_frame okCompletion).1 okParsedCompletion rfl).2.2.2.2.2.1⟩
